import Mathlib

/-
Verification development for the auto-youtube-shorts worker (src/main.py).

The file shallowly embeds the three core components of the program:
  * the title sanitizer (strip_control_and_unsupported, keep_basic_chars,
    make_safe_title),
  * the combination fingerprint (compute_signature) together with a full
    SHA-256 implementation over Nat,
  * the used-set store (load_used_sets_local / save_used_sets_local) and the
    repeat-avoiding sampler (pick_images_avoiding_repeats).

Python strings are embedded as Lean String / List Char; Python sets of
fingerprints as List String with set semantics (membership, List.insert);
randomness (random.sample) as an oracle stream of draws supplied as an
argument; file I/O as explicit values (the persisted artifact is an
Option String, saves are recorded in an explicit log so that theorems can
count them).
-/

namespace AutoShorts

/-- Embedding of the test `unicodedata.category(ch)[0] == "C"` used by
`strip_control_and_unsupported` in src/main.py.  The ranges below cover the
control (Cc), format (Cf), surrogate (Cs) and private-use (Co) categories and
the permanent noncharacters of category Cn.  The remaining Cn codepoints
(unassigned characters, a Unicode-version-dependent table) are not enumerated;
no theorem in this file depends on the classification of any character outside
the ranges listed here. -/
def isCategoryC (c : Char) : Bool :=
  let n := c.toNat
  (n < 32) || (127 ≤ n && n ≤ 159) ||
  n = 173 ||
  (1536 ≤ n && n ≤ 1541) ||
  n = 1564 || n = 1757 || n = 1807 ||
  n = 2192 || n = 2193 ||
  n = 2274 ||
  n = 6158 ||
  (8203 ≤ n && n ≤ 8207) ||
  (8234 ≤ n && n ≤ 8238) ||
  (8288 ≤ n && n ≤ 8292) ||
  (8294 ≤ n && n ≤ 8303) ||
  n = 65279 ||
  (65529 ≤ n && n ≤ 65531) ||
  n = 69821 || n = 69837 ||
  (78896 ≤ n && n ≤ 78911) ||
  (113824 ≤ n && n ≤ 113827) ||
  (119155 ≤ n && n ≤ 119162) ||
  n = 917505 || (917536 ≤ n && n ≤ 917631) ||
  (55296 ≤ n && n ≤ 57343) ||
  (57344 ≤ n && n ≤ 63743) ||
  (983040 ≤ n && n ≤ 1048573) || (1048576 ≤ n && n ≤ 1114109) ||
  (64976 ≤ n && n ≤ 65007) ||
  (n % 65536 = 65534) || (n % 65536 = 65535)

/-- The whitespace class matched by the pattern `\s` of `re` on str and
stripped by `str.strip()` / `str.rstrip()` with no argument: the ASCII
whitespace characters together with the Unicode whitespace codepoints. -/
def isPySpace (c : Char) : Bool :=
  let n := c.toNat
  (9 ≤ n && n ≤ 13) || (28 ≤ n && n ≤ 31) || n = 32 || n = 133 || n = 160 ||
  n = 5760 || (8192 ≤ n && n ≤ 8202) || n = 8232 || n = 8233 || n = 8239 ||
  n = 8287 || n = 12288

/-- The allow-list of the character class in `keep_basic_chars`
(`[^A-Za-z0-9 .,;:!?@#&()\-_/|’'\"+]` in src/main.py, line 266): ASCII
letters (65-90, 97-122), digits (48-57), space (32), and the punctuation
. , ; : ! ? @ # & ( ) - _ / | ’ ' " + — codepoints 46 44 59 58 33 63 64 35
38 40 41 45 95 47 124 8217 39 34 43.  Note 8217 is U+2019, the right single
quotation mark, which the source regex lists literally. -/
def isWhitelistChar (c : Char) : Bool :=
  let n := c.toNat
  (65 ≤ n && n ≤ 90) || (97 ≤ n && n ≤ 122) || (48 ≤ n && n ≤ 57) ||
  n = 32 || n = 46 || n = 44 || n = 59 || n = 58 || n = 33 || n = 63 ||
  n = 64 || n = 35 || n = 38 || n = 40 || n = 41 || n = 45 || n = 95 ||
  n = 47 || n = 124 || n = 8217 || n = 39 || n = 34 || n = 43

/-- Modelled from the spec (section 4.3 step 3): the whitelist as the spec
words it — ASCII letters, digits, space, and the punctuation set
. , ; : ! ? @ # & ( ) - _ / | ' " + — written for comparison against the
source's `isWhitelistChar`.  It omits codepoint 8217 (U+2019). -/
def specWhitelistChar (c : Char) : Bool :=
  let n := c.toNat
  (65 ≤ n && n ≤ 90) || (97 ≤ n && n ≤ 122) || (48 ≤ n && n ≤ 57) ||
  n = 32 || n = 46 || n = 44 || n = 59 || n = 58 || n = 33 || n = 63 ||
  n = 64 || n = 35 || n = 38 || n = 40 || n = 41 || n = 45 || n = 95 ||
  n = 47 || n = 124 || n = 39 || n = 34 || n = 43

/-- The separator class of `t.strip(" .-_")` in `make_safe_title`:
space, full stop, hyphen, underscore. -/
def isSepChar (c : Char) : Bool :=
  c.toNat = 32 || c.toNat = 46 || c.toNat = 45 || c.toNat = 95

/-- Replace every maximal run of `\s` characters by a single ASCII space,
as `re.sub(r"\s+", " ", text)` does.  The Bool flag records whether the
previous character was part of a whitespace run. -/
def collapseGo : Bool → List Char → List Char
  | _, [] => []
  | prevSpace, c :: cs =>
    if isPySpace c then
      if prevSpace then collapseGo true cs else ' ' :: collapseGo true cs
    else c :: collapseGo false cs

def collapseWs (l : List Char) : List Char := collapseGo false l

/-- `str.lstrip`-style removal of leading characters satisfying `p`. -/
def lstripBy (p : Char → Bool) (l : List Char) : List Char := l.dropWhile p

/-- `str.rstrip`-style removal of trailing characters satisfying `p`. -/
def rstripBy (p : Char → Bool) (l : List Char) : List Char :=
  (l.reverse.dropWhile p).reverse

/-- `str.strip`-style removal at both ends. -/
def stripBy (p : Char → Bool) (l : List Char) : List Char :=
  rstripBy p (lstripBy p l)

/-- `strip_control_and_unsupported` (src/main.py, lines 256-261): remove
every character of Unicode category C, collapse whitespace runs to a single
space, and strip leading/trailing whitespace. -/
def strip_control_and_unsupported (text : String) : String :=
  ⟨stripBy isPySpace (collapseWs (text.data.filter (fun c => !(isCategoryC c))))⟩

/-- `keep_basic_chars` (src/main.py, lines 263-266): remove every character
outside the allow-list. -/
def keep_basic_chars (text : String) : String :=
  ⟨text.data.filter isWhitelistChar⟩

/-- `SAFE_MAX_TITLE` (src/main.py, line 49). -/
def SAFE_MAX_TITLE : Nat := 95

/-- The local `t` of `make_safe_title` just before the length check: the raw
title stripped, whitelist-filtered, separator-stripped (`t.strip(" .-_")`),
with the default substituted when the result is empty (`if not t:`). -/
def titleBeforeTruncation (raw : String) (default : String) : String :=
  if stripBy isSepChar (keep_basic_chars (strip_control_and_unsupported raw)).data = []
  then default
  else ⟨stripBy isSepChar (keep_basic_chars (strip_control_and_unsupported raw)).data⟩

/-- `make_safe_title` (src/main.py, lines 268-276).  `t[:SAFE_MAX_TITLE]`
is `List.take`, `.rstrip()` strips trailing whitespace. -/
def make_safe_title (raw : String) (default : String) : String :=
  if SAFE_MAX_TITLE < (titleBeforeTruncation raw default).data.length then
    ⟨rstripBy isPySpace ((titleBeforeTruncation raw default).data.take SAFE_MAX_TITLE)⟩
  else titleBeforeTruncation raw default

/-- No two adjacent whitespace characters (used to state when a string is a
fixed point of whitespace collapsing). -/
def noTwoSpaces : List Char → Bool
  | a :: b :: t => (!(isPySpace a && isPySpace b)) && noTwoSpaces (b :: t)
  | _ => true

/-- Sanitized normal form: non-empty, within the length bound, every
character in the source allow-list, no adjacent whitespace, and neither end
a separator character.  Every string of this shape is a fixed point of
`make_safe_title`. -/
def sanitizedNormalForm (s : String) : Bool :=
  (!s.data.isEmpty) && decide (s.data.length ≤ SAFE_MAX_TITLE) &&
  s.data.all isWhitelistChar && noTwoSpaces s.data &&
  (match s.data.head? with | some c => !isSepChar c | none => true) &&
  (match s.data.getLast? with | some c => !isSepChar c | none => true)

/-- An entry of the Drive file listing (`files(id, name, mimeType)`), as used
by the sampler and the fingerprint: only `id` and `name` matter to the core. -/
structure DriveFile where
  id : String
  name : String
deriving DecidableEq, Repr

/-- Code-point lexicographic comparison of character lists; this is the order
Python's `sorted` uses on `str` values. -/
def lexLe : List Char → List Char → Bool
  | [], _ => true
  | _ :: _, [] => false
  | a :: as, b :: bs => if a < b then true else if b < a then false else lexLe as bs

/-- The order `sorted` uses on strings, as a relation. -/
def StrLe (a b : String) : Prop := lexLe a.data b.data = true

instance (a b : String) : Decidable (StrLe a b) := by
  unfold StrLe; infer_instance

/-- Python's `sorted` on a list of strings (stability is irrelevant for a
linear order on the elements). -/
def pySorted (l : List String) : List String := List.insertionSort StrLe l

/-- 32-bit truncation. -/
def w32 (n : Nat) : Nat := n % 4294967296

/-- 32-bit rotate right (input assumed < 2^32). -/
def rotr (k x : Nat) : Nat := w32 ((x >>> k) ||| (x <<< (32 - k)))

def smallSigma0 (x : Nat) : Nat := rotr 7 x ^^^ rotr 18 x ^^^ (x >>> 3)

def smallSigma1 (x : Nat) : Nat := rotr 17 x ^^^ rotr 19 x ^^^ (x >>> 10)

def bigSigma0 (x : Nat) : Nat := rotr 2 x ^^^ rotr 13 x ^^^ rotr 22 x

def bigSigma1 (x : Nat) : Nat := rotr 6 x ^^^ rotr 11 x ^^^ rotr 25 x

def chFn (x y z : Nat) : Nat := (x &&& y) ^^^ ((x ^^^ 0xffffffff) &&& z)

def majFn (x y z : Nat) : Nat := (x &&& y) ^^^ (x &&& z) ^^^ (y &&& z)

/-- The 64 SHA-256 round constants of FIPS 180-4, as decimal naturals. -/
def sha256K : List Nat :=
  [1116352408, 1899447441, 3049323471, 3921009573, 961987163,
   1508970993, 2453635748, 2870763221, 3624381080, 310598401,
   607225278, 1426881987, 1925078388, 2162078206, 2614888103,
   3248222580, 3835390401, 4022224774, 264347078, 604807628,
   770255983, 1249150122, 1555081692, 1996064986, 2554220882,
   2821834349, 2952996808, 3210313671, 3336571891, 3584528711,
   113926993, 338241895, 666307205, 773529912, 1294757372,
   1396182291, 1695183700, 1986661051, 2177026350, 2456956037,
   2730485921, 2820302411, 3259730800, 3345764771, 3516065817,
   3600352804, 4094571909, 275423344, 430227734, 506948616,
   659060556, 883997877, 958139571, 1322822218, 1537002063,
   1747873779, 1955562222, 2024104815, 2227730452, 2361852424,
   2428436474, 2756734187, 3204031479, 3329325298]

/-- The eight SHA-256 initial hash words, as decimal naturals. -/
def sha256H0 : List Nat :=
  [1779033703, 3144134277, 1013904242, 2773480762,
   1359893119, 2600822924, 528734635, 1541459225]

/-- UTF-8 encoding of one character (as `str.encode("utf-8")` produces). -/
def utf8Bytes (c : Char) : List Nat :=
  let n := c.toNat
  if n < 0x80 then [n]
  else if n < 0x800 then
    [0xc0 ||| (n >>> 6), 0x80 ||| (n &&& 0x3f)]
  else if n < 0x10000 then
    [0xe0 ||| (n >>> 12), 0x80 ||| ((n >>> 6) &&& 0x3f), 0x80 ||| (n &&& 0x3f)]
  else
    [0xf0 ||| (n >>> 18), 0x80 ||| ((n >>> 12) &&& 0x3f),
     0x80 ||| ((n >>> 6) &&& 0x3f), 0x80 ||| (n &&& 0x3f)]

/-- `k` bytes of `n`, big-endian. -/
def bytesBE : Nat → Nat → List Nat
  | 0, _ => []
  | k + 1, n => bytesBE k (n >>> 8) ++ [n &&& 0xff]

/-- SHA-256 padding: append 0x80, zero bytes to 56 mod 64, and the bit
length as an 8-byte big-endian integer. -/
def padMessage (msg : List Nat) : List Nat :=
  let len := msg.length
  let zeros := (119 - (len % 64)) % 64
  msg ++ [0x80] ++ List.replicate zeros 0 ++ bytesBE 8 (8 * len)

/-- Group bytes into 32-bit big-endian words. -/
def toWords : List Nat → List Nat
  | b0 :: b1 :: b2 :: b3 :: rest =>
    ((b0 <<< 24) ||| (b1 <<< 16) ||| (b2 <<< 8) ||| b3) :: toWords rest
  | _ => []

/-- Extend the 16 message-schedule words to 64. -/
def extendSchedule (w : List Nat) : List Nat :=
  (List.range 48).foldl
    (fun acc _ =>
      let m := acc.length
      acc ++ [w32 (acc.getD (m - 16) 0 + smallSigma0 (acc.getD (m - 15) 0) +
                   acc.getD (m - 7) 0 + smallSigma1 (acc.getD (m - 2) 0))])
    w

/-- One SHA-256 compression round step on the eight-word working state. -/
def roundStep (st : List Nat) (kw : Nat × Nat) : List Nat :=
  match st with
  | [a, b, c, d, e, f, g, h] =>
    let t1 := w32 (h + bigSigma1 e + chFn e f g + kw.1 + kw.2)
    let t2 := w32 (bigSigma0 a + majFn a b c)
    [w32 (t1 + t2), a, b, c, w32 (d + t1), e, f, g]
  | other => other

/-- Compress one 64-byte block into the running hash value. -/
def compressBlock (hs : List Nat) (block : List Nat) : List Nat :=
  let w := extendSchedule (toWords block)
  let final := (sha256K.zip w).foldl roundStep hs
  (hs.zip final).map (fun p => w32 (p.1 + p.2))

/-- Split a byte list into 64-byte chunks. -/
def chunk64 (l : List Nat) : List (List Nat) :=
  match l with
  | [] => []
  | a :: rest => ((a :: rest).take 64) :: chunk64 ((a :: rest).drop 64)
termination_by l.length
decreasing_by simp [List.length_drop]; omega

/-- SHA-256 of a byte sequence, as 32 output bytes. -/
def sha256Bytes (msg : List Nat) : List Nat :=
  let blocks := chunk64 (padMessage msg)
  let hs := blocks.foldl compressBlock sha256H0
  hs.flatMap (fun wv => bytesBE 4 wv)

/-- Lower-case hex digit. -/
def hexChar (n : Nat) : Char :=
  if n < 10 then Char.ofNat (48 + n) else Char.ofNat (87 + n)

/-- `hashlib.sha256(raw).hexdigest()` over the UTF-8 encoding of a string. -/
def sha256_hexdigest (s : String) : String :=
  ⟨(sha256Bytes (s.data.flatMap utf8Bytes)).flatMap
    (fun b => [hexChar (b / 16), hexChar (b % 16)])⟩

/-- `compute_signature` (src/main.py, lines 127-132): a stable signature from
the sorted Drive file ids, joined with "," and hashed with SHA-256. -/
def compute_signature (file_meta_list : List DriveFile) : String :=
  sha256_hexdigest (String.intercalate "," (pySorted (file_meta_list.map DriveFile.id)))

/-- JSON whitespace skipping. -/
def skipJsonWs (l : List Char) : List Char :=
  l.dropWhile (fun c => c = ' ' || c = '\t' || c = '\n' || c = '\r')

/-- A parsed JSON value, as `json.load` produces: null, booleans, numbers
(kept as their source literal, including the NaN and Infinity extensions the
loader accepts by default), strings, arrays and objects. -/
inductive Json where
  | jnull : Json
  | jbool : Bool → Json
  | jnum : String → Json
  | jstr : String → Json
  | jarr : List Json → Json
  | jobj : List (String × Json) → Json

/-- A hashable element of the Python set `set(json.load(f))` builds: None, a
bool, a number or a string.  Numbers keep their JSON literal; Python's
cross-type numeric equality (1 == 1.0) is not modelled, which affects only
how duplicates between distinct literals would collapse — no theorem depends
on that. -/
inductive PyElem where
  | pnull : PyElem
  | pbool : Bool → PyElem
  | pnum : String → PyElem
  | pstr : String → PyElem
deriving DecidableEq, Repr

/-- Value of a hex digit, as in a JSON \u escape. -/
def hexDigitVal (c : Char) : Option Nat :=
  if 48 ≤ c.toNat ∧ c.toNat ≤ 57 then some (c.toNat - 48)
  else if 97 ≤ c.toNat ∧ c.toNat ≤ 102 then some (c.toNat - 87)
  else if 65 ≤ c.toNat ∧ c.toNat ≤ 70 then some (c.toNat - 55)
  else none

/-- Parse the remainder of a JSON string literal (opening quote already
consumed), with the escapes `json.load` accepts, including \uXXXX and
surrogate pairs; a raw control character or an unknown escape is a decode
error (`none`).  A lone surrogate — which Python would keep — is mapped to
U+FFFD, since a Lean `Char` cannot hold it; no theorem depends on the
identity of such a character.  `fuel` bounds the recursion by the input
length. -/
def parseJsonString (fuel : Nat) (l : List Char) (acc : List Char) :
    Option (String × List Char) :=
  match fuel, l with
  | 0, _ => none
  | _, [] => none
  | fuel + 1, c :: rest =>
    if c = '"' then some (⟨acc.reverse⟩, rest)
    else if c = '\\' then
      match rest with
      | [] => none
      | e :: r2 =>
        if e = '"' then parseJsonString fuel r2 ('"' :: acc)
        else if e = '\\' then parseJsonString fuel r2 ('\\' :: acc)
        else if e = '/' then parseJsonString fuel r2 ('/' :: acc)
        else if e = 'b' then parseJsonString fuel r2 (Char.ofNat 8 :: acc)
        else if e = 'f' then parseJsonString fuel r2 (Char.ofNat 12 :: acc)
        else if e = 'n' then parseJsonString fuel r2 ('\n' :: acc)
        else if e = 'r' then parseJsonString fuel r2 ('\r' :: acc)
        else if e = 't' then parseJsonString fuel r2 ('\t' :: acc)
        else if e = 'u' then
          match r2 with
          | h1 :: h2 :: h3 :: h4 :: r3 =>
            match hexDigitVal h1, hexDigitVal h2, hexDigitVal h3, hexDigitVal h4 with
            | some d1, some d2, some d3, some d4 =>
              let n := ((d1 * 16 + d2) * 16 + d3) * 16 + d4
              if 55296 ≤ n ∧ n ≤ 56319 then
                match r3 with
                | u1 :: u2 :: k1 :: k2 :: k3 :: k4 :: r4 =>
                  if u1 = '\\' ∧ u2 = 'u' then
                    match hexDigitVal k1, hexDigitVal k2, hexDigitVal k3, hexDigitVal k4 with
                    | some e1, some e2, some e3, some e4 =>
                      let m := ((e1 * 16 + e2) * 16 + e3) * 16 + e4
                      if 56320 ≤ m ∧ m ≤ 57343 then
                        parseJsonString fuel r4
                          (Char.ofNat (65536 + (n - 55296) * 1024 + (m - 56320)) :: acc)
                      else parseJsonString fuel r3 (Char.ofNat 65533 :: acc)
                    | _, _, _, _ => parseJsonString fuel r3 (Char.ofNat 65533 :: acc)
                  else parseJsonString fuel r3 (Char.ofNat 65533 :: acc)
                | _ => parseJsonString fuel r3 (Char.ofNat 65533 :: acc)
              else if 56320 ≤ n ∧ n ≤ 57343 then
                parseJsonString fuel r3 (Char.ofNat 65533 :: acc)
              else parseJsonString fuel r3 (Char.ofNat n :: acc)
            | _, _, _, _ => none
          | _ => none
        else none
    else if c.toNat < 32 then none
    else parseJsonString fuel rest (c :: acc)

def isDigitChar (c : Char) : Bool := 48 ≤ c.toNat && c.toNat ≤ 57

def spanDigits (l : List Char) : List Char × List Char :=
  (l.takeWhile isDigitChar, l.dropWhile isDigitChar)

/-- The optional fraction part `.digits` of a JSON number; if the dot is not
followed by a digit it is left unconsumed, as the loader's maximal-munch
number regex would leave it (the leftover then fails the extra-data check). -/
def fracPart (l : List Char) : List Char × List Char :=
  match l with
  | c :: d :: rest =>
    if c = '.' ∧ isDigitChar d then
      match spanDigits rest with
      | (ds, r) => ('.' :: d :: ds, r)
    else ([], l)
  | _ => ([], l)

/-- The optional exponent part `[eE][+-]?digits` of a JSON number, with the
same maximal-munch convention as `fracPart`. -/
def expPart (l : List Char) : List Char × List Char :=
  match l with
  | e :: s :: d :: rest =>
    if e = 'e' ∨ e = 'E' then
      if (s = '+' ∨ s = '-') ∧ isDigitChar d then
        match spanDigits rest with
        | (ds, r) => (e :: s :: d :: ds, r)
      else if isDigitChar s then
        match spanDigits (d :: rest) with
        | (ds, r) => (e :: s :: ds, r)
      else ([], l)
    else ([], l)
  | e :: s :: [] =>
    if (e = 'e' ∨ e = 'E') ∧ isDigitChar s then ([e, s], []) else ([], l)
  | _ => ([], l)

/-- A JSON number: `-?(0|[1-9]digits)(frac)?(exp)?`, returned as its literal
text, as the loader's number regex recognises it. -/
def parseNumber (l : List Char) : Option (String × List Char) :=
  match l with
  | '-' :: l1 =>
    match parseNumber l1 with
    | some (s, r) => some (⟨'-' :: s.data⟩, r)
    | none => none
  | c :: rest =>
    if c = '0' then
      match fracPart rest with
      | (f, r1) =>
        match expPart r1 with
        | (e, r2) => some (⟨c :: (f ++ e)⟩, r2)
    else if isDigitChar c then
      match spanDigits rest with
      | (ds, r0) =>
        match fracPart r0 with
        | (f, r1) =>
          match expPart r1 with
          | (e, r2) => some (⟨c :: (ds ++ f ++ e)⟩, r2)
    else none
  | [] => none

/-- Match a literal keyword such as null or true at the head of the input. -/
def matchLit : List Char → List Char → Option (List Char)
  | [], l => some l
  | p :: ps, c :: cs => if c = p then matchLit ps cs else none
  | _ :: _, [] => none

mutual

/-- One JSON value, as the loader's recursive-descent scanner reads it
(leading whitespace allowed, NaN and the Infinities accepted); `fuel` bounds
the recursion by the input length. -/
def parseJsonValue : Nat → List Char → Option (Json × List Char)
  | 0, _ => none
  | fuel + 1, l =>
    match skipJsonWs l with
    | [] => none
    | c :: rest =>
      if c = '"' then
        match parseJsonString (rest.length + 1) rest [] with
        | some (s, r) => some (Json.jstr s, r)
        | none => none
      else if c = '[' then
        match skipJsonWs rest with
        | c2 :: r2 =>
          if c2 = ']' then some (Json.jarr [], r2)
          else
            match parseJsonValue fuel (c2 :: r2) with
            | some (v, r3) => parseArrayItems fuel r3 [v]
            | none => none
        | [] => none
      else if c.toNat = 123 then
        match skipJsonWs rest with
        | c2 :: r2 =>
          if c2.toNat = 125 then some (Json.jobj [], r2)
          else if c2 = '"' then
            match parseJsonString (r2.length + 1) r2 [] with
            | some (k, r3) =>
              match skipJsonWs r3 with
              | ':' :: r4 =>
                match parseJsonValue fuel r4 with
                | some (v, r5) => parseObjItems fuel r5 [(k, v)]
                | none => none
              | _ => none
            | none => none
          else none
        | [] => none
      else
        match matchLit "null".data (c :: rest) with
        | some r => some (Json.jnull, r)
        | none =>
          match matchLit "true".data (c :: rest) with
          | some r => some (Json.jbool true, r)
          | none =>
            match matchLit "false".data (c :: rest) with
            | some r => some (Json.jbool false, r)
            | none =>
              match matchLit "NaN".data (c :: rest) with
              | some r => some (Json.jnum "NaN", r)
              | none =>
                match matchLit "Infinity".data (c :: rest) with
                | some r => some (Json.jnum "Infinity", r)
                | none =>
                  match matchLit "-Infinity".data (c :: rest) with
                  | some r => some (Json.jnum "-Infinity", r)
                  | none =>
                    match parseNumber (c :: rest) with
                    | some (s, r) => some (Json.jnum s, r)
                    | none => none

/-- The tail of a JSON array after one element: `(, value)* ]`. -/
def parseArrayItems : Nat → List Char → List Json → Option (Json × List Char)
  | 0, _, _ => none
  | fuel + 1, l, acc =>
    match skipJsonWs l with
    | ']' :: r => some (Json.jarr acc.reverse, r)
    | ',' :: r =>
      match parseJsonValue fuel r with
      | some (v, r2) => parseArrayItems fuel r2 (v :: acc)
      | none => none
    | _ => none

/-- The tail of a JSON object after one member: `(, string : value)* and the
closing brace`. -/
def parseObjItems : Nat → List Char → List (String × Json) →
    Option (Json × List Char)
  | 0, _, _ => none
  | fuel + 1, l, acc =>
    match skipJsonWs l with
    | c :: r =>
      if c.toNat = 125 then some (Json.jobj acc.reverse, r)
      else if c = ',' then
        match skipJsonWs r with
        | '"' :: r2 =>
          match parseJsonString (r2.length + 1) r2 [] with
          | some (k, r3) =>
            match skipJsonWs r3 with
            | ':' :: r4 =>
              match parseJsonValue fuel r4 with
              | some (v, r5) => parseObjItems fuel r5 ((k, v) :: acc)
              | none => none
            | _ => none
          | none => none
        | _ => none
      else none
    | [] => none

end

/-- `json.load` on the whole artifact: one JSON value followed only by
whitespace; anything else raises JSONDecodeError, modelled as `none`. -/
def parseJsonTop (content : String) : Option Json :=
  match parseJsonValue (content.data.length + 1) content.data with
  | some (v, rest) => if skipJsonWs rest = [] then some v else none
  | none => none

/-- A hashable set element from a JSON value: scalars only; arrays and
objects are unhashable (`set()` would raise TypeError on them). -/
def scalarElem : Json → Option PyElem
  | Json.jnull => some PyElem.pnull
  | Json.jbool b => some (PyElem.pbool b)
  | Json.jnum s => some (PyElem.pnum s)
  | Json.jstr s => some (PyElem.pstr s)
  | _ => none

/-- `set(v)` for a parsed JSON value `v`: iterating a string yields its
characters, an array its elements (all of which must be hashable), an object
its keys; null, booleans and numbers are not iterable, so `set()` raises
TypeError — modelled as `none`.  The resulting set is a deduplicated list. -/
def pySetOf : Json → Option (List PyElem)
  | Json.jstr s => some ((s.data.map (fun c => PyElem.pstr ⟨[c]⟩)).dedup)
  | Json.jarr xs =>
    match xs.mapM scalarElem with
    | some es => some es.dedup
    | none => none
  | Json.jobj fs => some ((fs.map (fun p => PyElem.pstr p.1)).dedup)
  | _ => none

/-- `load_used_sets_local` (src/main.py, lines 134-142).  The persisted
artifact is `none` when `STATE_FILE` does not exist and `some content`
otherwise; an unreadable file behaves like undecodable content (the
exception is raised inside the try block either way).  `set(json.load(f))`
is `parseJsonTop` followed by `pySetOf`; the `except Exception` branch —
decode errors and TypeError from `set()` — returns the empty set.  Note
that well-formed JSON of the wrong shape (an array of numbers, a quoted
string, an object) does NOT take the exception branch: it yields a
non-empty set of garbage entries. -/
def load_used_sets_local (artifact : Option String) : List PyElem :=
  match artifact with
  | none => []
  | some content =>
    match parseJsonTop content with
    | none => []
    | some v =>
      match pySetOf v with
      | none => []
      | some s => s

/-- The result of `random.sample(files, min(n, len(files)))`: a duplicate-free
selection of `min n files.length` elements of `files`. -/
def isSample (files : List DriveFile) (n : Nat) (s : List DriveFile) : Prop :=
  s.Nodup ∧ s.length = min n files.length ∧ ∀ f ∈ s, f ∈ files

instance (files : List DriveFile) (n : Nat) (s : List DriveFile) :
    Decidable (isSample files n s) := by
  unfold isSample; infer_instance

/-- The retry loop of `pick_images_avoiding_repeats` plus its fallback.
`draws i` is the subset returned by the i-th call to `random.sample`;
`remaining` is `max_attempts - attempts`.  The result carries the chosen
subset, the final used set, and the log of arguments passed to
`save_used_sets_local` (one entry per save).  `List.insert` is `set.add`:
it is a cons when the signature is fresh and a no-op when it is already
present. -/
def pickAttempts (draws : Nat → List DriveFile) (attempt : Nat)
    (used : List String) :
    Nat → List DriveFile × List String × List (List String)
  | 0 =>
    let chosen := draws attempt
    let sig := compute_signature chosen
    let used1 := used.insert sig
    (chosen, used1, [used1])
  | remaining + 1 =>
    let chosen := draws attempt
    let sig := compute_signature chosen
    if sig ∈ used then
      pickAttempts draws (attempt + 1) used remaining
    else
      let used1 := used.insert sig
      (chosen, used1, [used1])

/-- `pick_images_avoiding_repeats` (src/main.py, lines 150-169).  `files` is
the folder listing, `used0` the loaded used set, and `draws` the oracle for
`random.sample(files, min(n, len(files)))` — the parameter `n` reaches the
algorithm only through that call, so theorems constrain `draws` with
`isSample files n`.  An `Except.error` models the raised `RuntimeError`. -/
def pick_images_avoiding_repeats (draws : Nat → List DriveFile)
    (files : List DriveFile) (n : Nat) (used0 : List String)
    (max_attempts : Nat) :
    Except String (List DriveFile × List String × List (List String)) :=
  if files = [] then Except.error "No images found in Drive folder."
  else Except.ok (pickAttempts draws 0 used0 max_attempts)

lemma length_dropWhile_le (p : Char → Bool) (l : List Char) :
    (l.dropWhile p).length ≤ l.length := by
  induction l with
  | nil => simp
  | cons a t ih =>
    rw [List.dropWhile_cons]
    split
    · exact le_trans ih (Nat.le_succ _)
    · exact le_refl _

lemma length_rstripBy_le (p : Char → Bool) (l : List Char) :
    (rstripBy p l).length ≤ l.length := by
  unfold rstripBy
  rw [List.length_reverse]
  calc (l.reverse.dropWhile p).length ≤ l.reverse.length := length_dropWhile_le p l.reverse
  _ = l.length := List.length_reverse l

lemma mem_rstripBy (p : Char → Bool) (l : List Char) (c : Char)
    (h : c ∈ rstripBy p l) : c ∈ l := by
  unfold rstripBy at h
  rw [List.mem_reverse] at h
  have h2 := (List.dropWhile_sublist p).subset h
  rwa [List.mem_reverse] at h2

lemma rstripBy_eq_nil (p : Char → Bool) (l : List Char)
    (h : rstripBy p l = []) : ∀ c ∈ l, p c = true := by
  unfold rstripBy at h
  have h2 : l.reverse.dropWhile p = [] := List.reverse_eq_nil_iff.mp h
  intro c hc
  exact List.dropWhile_eq_nil_iff.mp h2 c (List.mem_reverse.mpr hc)

lemma mem_stripBy (p : Char → Bool) (l : List Char) (c : Char)
    (h : c ∈ stripBy p l) : c ∈ l := by
  unfold stripBy lstripBy at h
  exact (List.dropWhile_sublist p).subset (mem_rstripBy p _ c h)

lemma head?_dropWhile_not (p : Char → Bool) :
    ∀ (l : List Char) (c : Char), (l.dropWhile p).head? = some c → p c = false := by
  intro l
  induction l with
  | nil => intro c h; simp [List.dropWhile] at h
  | cons a t ih =>
    intro c h
    cases hpa : p a with
    | true => rw [List.dropWhile_cons, if_pos hpa] at h; exact ih c h
    | false =>
      rw [List.dropWhile_cons, if_neg (by simp [hpa])] at h
      have : a = c := by simpa using h
      subst this
      exact hpa

lemma rstripBy_head? (p : Char → Bool) (a : Char) (t : List Char) (c : Char)
    (h : (rstripBy p (a :: t)).head? = some c) : c = a := by
  unfold rstripBy at h
  rw [List.reverse_cons, List.dropWhile_append] at h
  by_cases he : (t.reverse.dropWhile p).isEmpty
  · rw [if_pos he] at h
    cases hpa : p a with
    | true =>
      rw [show ([a].dropWhile p) = [] from by simp [List.dropWhile, hpa]] at h
      simp at h
    | false =>
      rw [show ([a].dropWhile p) = [a] from by simp [List.dropWhile, hpa]] at h
      simpa using h.symm
  · rw [if_neg he, List.reverse_append] at h
    simpa using h.symm

lemma stripBy_head? (p : Char → Bool) (l : List Char) (c : Char)
    (h : (stripBy p l).head? = some c) : p c = false := by
  unfold stripBy at h
  cases hm : lstripBy p l with
  | nil => rw [hm] at h; simp [rstripBy] at h
  | cons a t =>
    rw [hm] at h
    have hc := rstripBy_head? p a t c h
    subst hc
    apply head?_dropWhile_not p l
    unfold lstripBy at hm
    rw [hm]
    rfl

lemma lstrip_fix (p : Char → Bool) (l : List Char)
    (h : ∀ c, l.head? = some c → p c = false) : l.dropWhile p = l := by
  cases l with
  | nil => rfl
  | cons a t =>
    rw [List.dropWhile_cons, if_neg]
    simp [h a rfl]

lemma rstrip_fix (p : Char → Bool) (l : List Char)
    (h : ∀ c, l.getLast? = some c → p c = false) : rstripBy p l = l := by
  unfold rstripBy
  rw [lstrip_fix p l.reverse (fun c hc => h c (by rwa [List.head?_reverse] at hc))]
  exact List.reverse_reverse l

lemma strip_fix (p : Char → Bool) (l : List Char)
    (hh : ∀ c, l.head? = some c → p c = false)
    (hl : ∀ c, l.getLast? = some c → p c = false) : stripBy p l = l := by
  unfold stripBy lstripBy
  rw [lstrip_fix p l hh]
  exact rstrip_fix p l hl

lemma whitelist_not_categoryC (c : Char) (h : isWhitelistChar c = true) :
    isCategoryC c = false := by
  rw [Bool.eq_false_iff]
  intro hC
  simp only [isWhitelistChar, Bool.or_eq_true, Bool.and_eq_true, decide_eq_true_eq] at h
  simp only [isCategoryC, Bool.or_eq_true, Bool.and_eq_true, decide_eq_true_eq] at hC
  omega

lemma whitelist_space (c : Char) (h : isWhitelistChar c = true)
    (hs : isPySpace c = true) : c = ' ' := by
  have hn : c.toNat = 32 := by
    simp only [isWhitelistChar, Bool.or_eq_true, Bool.and_eq_true, decide_eq_true_eq] at h
    simp only [isPySpace, Bool.or_eq_true, Bool.and_eq_true, decide_eq_true_eq] at hs
    omega
  have h2 := Char.ofNat_toNat c
  rw [hn] at h2
  rw [← h2]

lemma collapseGo_chars :
    ∀ (l : List Char) (flag : Bool) (c : Char), c ∈ collapseGo flag l →
      c = ' ' ∨ (c ∈ l ∧ isPySpace c = false) := by
  intro l
  induction l with
  | nil => intro flag c h; simp [collapseGo] at h
  | cons a t ih =>
    intro flag c h
    cases hpa : isPySpace a with
    | true =>
      cases flag with
      | true =>
        simp only [collapseGo, hpa, if_true] at h
        rcases ih true c h with h2 | ⟨h2, h3⟩
        · exact Or.inl h2
        · exact Or.inr ⟨List.mem_cons_of_mem a h2, h3⟩
      | false =>
        simp only [collapseGo, hpa, if_true] at h
        rcases List.mem_cons.mp h with h2 | h2
        · exact Or.inl h2
        · rcases ih true c h2 with h3 | ⟨h3, h4⟩
          · exact Or.inl h3
          · exact Or.inr ⟨List.mem_cons_of_mem a h3, h4⟩
    | false =>
      have hred : collapseGo flag (a :: t) = a :: collapseGo false t := by
        cases flag <;> simp [collapseGo, hpa]
      rw [hred] at h
      rcases List.mem_cons.mp h with h2 | h2
      · rw [h2]; exact Or.inr ⟨List.mem_cons_self a t, hpa⟩
      · rcases ih false c h2 with h3 | ⟨h3, h4⟩
        · exact Or.inl h3
        · exact Or.inr ⟨List.mem_cons_of_mem a h3, h4⟩

lemma noTwoSpaces_tail (a : Char) (t : List Char)
    (h : noTwoSpaces (a :: t) = true) : noTwoSpaces t = true := by
  cases t with
  | nil => rfl
  | cons b t2 =>
    simp only [noTwoSpaces, Bool.and_eq_true] at h
    exact h.2

lemma noTwoSpaces_head (a : Char) (t : List Char)
    (h : noTwoSpaces (a :: t) = true) (ha : isPySpace a = true) :
    ∀ c, t.head? = some c → isPySpace c = false := by
  intro c hc
  cases t with
  | nil => simp at hc
  | cons b t2 =>
    have hb : b = c := by simpa using hc
    subst hb
    simp only [noTwoSpaces, Bool.and_eq_true, Bool.not_eq_true', Bool.and_eq_false_iff] at h
    rcases h.1 with h2 | h2
    · rw [ha] at h2; exact absurd h2 (by simp)
    · exact h2

lemma collapseGo_fix :
    ∀ (l : List Char),
      (∀ c ∈ l, isPySpace c = true → c = ' ') → noTwoSpaces l = true →
      collapseGo false l = l ∧
        ((∀ c, l.head? = some c → isPySpace c = false) → collapseGo true l = l) := by
  intro l
  induction l with
  | nil => exact fun _ _ => ⟨rfl, fun _ => rfl⟩
  | cons a t ih =>
    intro hall htwo
    have ihall : ∀ c ∈ t, isPySpace c = true → c = ' ' :=
      fun c hc => hall c (List.mem_cons_of_mem a hc)
    have ih2 := ih ihall (noTwoSpaces_tail a t htwo)
    cases hpa : isPySpace a with
    | true =>
      have ha : a = ' ' := hall a (List.mem_cons_self a t) hpa
      constructor
      · show collapseGo false (a :: t) = a :: t
        have hstep : collapseGo false (a :: t) = ' ' :: collapseGo true t := by
          simp [collapseGo, hpa]
        rw [hstep, ih2.2 (noTwoSpaces_head a t htwo hpa), ha]
      · intro hh
        have := hh a rfl
        rw [hpa] at this
        exact absurd this (by simp)
    | false =>
      have hred : ∀ flag, collapseGo flag (a :: t) = a :: collapseGo false t := by
        intro flag; cases flag <;> simp [collapseGo, hpa]
      constructor
      · rw [hred false, ih2.1]
      · intro _; rw [hred true, ih2.1]

lemma lexLe_total : ∀ as bs : List Char, lexLe as bs = true ∨ lexLe bs as = true := by
  intro as
  induction as with
  | nil => intro bs; exact Or.inl rfl
  | cons a as ih =>
    intro bs
    cases bs with
    | nil => exact Or.inr rfl
    | cons b bs =>
      rcases lt_trichotomy a b with h | h | h
      · left
        simp only [lexLe]
        rw [if_pos h]
      · subst h
        rcases ih bs with h2 | h2
        · left
          simp only [lexLe]
          rw [if_neg (lt_irrefl a), if_neg (lt_irrefl a)]
          exact h2
        · right
          simp only [lexLe]
          rw [if_neg (lt_irrefl a), if_neg (lt_irrefl a)]
          exact h2
      · right
        simp only [lexLe]
        rw [if_pos h]

lemma lexLe_trans :
    ∀ as bs cs : List Char, lexLe as bs = true → lexLe bs cs = true →
      lexLe as cs = true := by
  intro as
  induction as with
  | nil => intro bs cs _ _; rfl
  | cons a as ih =>
    intro bs cs h1 h2
    cases bs with
    | nil => simp [lexLe] at h1
    | cons b bs =>
      cases cs with
      | nil => simp [lexLe] at h2
      | cons c cs =>
        simp only [lexLe] at h1 h2 ⊢
        by_cases hab : a < b
        · by_cases hbc : b < c
          · rw [if_pos (lt_trans hab hbc)]
          · by_cases hcb : c < b
            · rw [if_neg hbc, if_pos hcb] at h2
              simp at h2
            · have hbceq : b = c := le_antisymm (not_lt.mp hcb) (not_lt.mp hbc)
              subst hbceq
              rw [if_pos hab]
        · by_cases hba : b < a
          · rw [if_neg hab, if_pos hba] at h1
            simp at h1
          · have habeq : a = b := le_antisymm (not_lt.mp hba) (not_lt.mp hab)
            subst habeq
            rw [if_neg hab, if_neg hba] at h1
            by_cases hac : a < c
            · rw [if_pos hac]
            · by_cases hca : c < a
              · rw [if_neg hac, if_pos hca] at h2
                simp at h2
              · rw [if_neg hac, if_neg hca] at h2 ⊢
                exact ih bs cs h1 h2

lemma lexLe_antisymm :
    ∀ as bs : List Char, lexLe as bs = true → lexLe bs as = true → as = bs := by
  intro as
  induction as with
  | nil =>
    intro bs _ h2
    cases bs with
    | nil => rfl
    | cons b bs => simp [lexLe] at h2
  | cons a as ih =>
    intro bs h1 h2
    cases bs with
    | nil => simp [lexLe] at h1
    | cons b bs =>
      simp only [lexLe] at h1 h2
      by_cases hab : a < b
      · rw [if_neg (lt_asymm hab), if_pos hab] at h2
        simp at h2
      · by_cases hba : b < a
        · rw [if_neg hab, if_pos hba] at h1
          simp at h1
        · have habeq : a = b := le_antisymm (not_lt.mp hba) (not_lt.mp hab)
          subst habeq
          rw [if_neg hab, if_neg hab] at h1 h2
          rw [ih bs h1 h2]

instance : IsTotal String StrLe :=
  ⟨fun a b => lexLe_total a.data b.data⟩

instance : IsTrans String StrLe :=
  ⟨fun a b c => lexLe_trans a.data b.data c.data⟩

instance : IsAntisymm String StrLe := by
  constructor
  intro a b h1 h2
  cases a with
  | mk da =>
    cases b with
    | mk db =>
      have : da = db := lexLe_antisymm da db h1 h2
      rw [this]

lemma compute_signature_perm (l1 l2 : List DriveFile)
    (h : (l1.map DriveFile.id).Perm (l2.map DriveFile.id)) :
    compute_signature l1 = compute_signature l2 := by
  unfold compute_signature pySorted
  congr 2
  exact List.eq_of_perm_of_sorted
    ((List.perm_insertionSort StrLe _).trans
      (h.trans (List.perm_insertionSort StrLe _).symm))
    (List.sorted_insertionSort StrLe _)
    (List.sorted_insertionSort StrLe _)

lemma pickAttempts_shape :
    ∀ (r : Nat) (draws : Nat → List DriveFile) (a : Nat) (used : List String),
      ∃ chosen used1, pickAttempts draws a used r = (chosen, used1, [used1]) ∧
        compute_signature chosen ∈ used1 := by
  intro r
  induction r with
  | zero =>
    intro draws a used
    exact ⟨draws a, used.insert (compute_signature (draws a)), rfl,
      List.mem_insert_self _ _⟩
  | succ r ih =>
    intro draws a used
    by_cases hmem : compute_signature (draws a) ∈ used
    · rw [show pickAttempts draws a used (r + 1) = pickAttempts draws (a + 1) used r from
        by simp [pickAttempts, hmem]]
      exact ih draws (a + 1) used
    · refine ⟨draws a, used.insert (compute_signature (draws a)), ?_,
        List.mem_insert_self _ _⟩
      simp [pickAttempts, hmem]

lemma pickAttempts_exhausted :
    ∀ (r : Nat) (draws : Nat → List DriveFile) (a : Nat) (used : List String),
      (∀ i, i < r → compute_signature (draws (a + i)) ∈ used) →
      pickAttempts draws a used r =
        (draws (a + r), used.insert (compute_signature (draws (a + r))),
          [used.insert (compute_signature (draws (a + r)))]) := by
  intro r
  induction r with
  | zero => intro draws a used _; simp [pickAttempts]
  | succ r ih =>
    intro draws a used h
    have h0 : compute_signature (draws a) ∈ used := by
      simpa using h 0 (Nat.succ_pos r)
    rw [show pickAttempts draws a used (r + 1) = pickAttempts draws (a + 1) used r from
      by simp [pickAttempts, h0]]
    rw [ih draws (a + 1) used (fun i hi => by
      have h2 := h (i + 1) (by omega)
      have h3 : a + (i + 1) = a + 1 + i := by omega
      rwa [h3] at h2)]
    have h4 : a + 1 + r = a + (r + 1) := by omega
    rw [h4]

lemma normalForm_parts (y : String) (h : sanitizedNormalForm y = true) :
    y.data ≠ [] ∧ y.data.length ≤ SAFE_MAX_TITLE ∧
    (∀ c ∈ y.data, isWhitelistChar c = true) ∧ noTwoSpaces y.data = true ∧
    (∀ c, y.data.head? = some c → isSepChar c = false) ∧
    (∀ c, y.data.getLast? = some c → isSepChar c = false) := by
  simp only [sanitizedNormalForm, Bool.and_eq_true, decide_eq_true_eq] at h
  obtain ⟨⟨⟨⟨⟨hne, hlen⟩, hall⟩, htwo⟩, hhead⟩, hlast⟩ := h
  refine ⟨?_, hlen, List.all_eq_true.mp hall, htwo, ?_, ?_⟩
  · intro hd
    rw [hd] at hne
    simp at hne
  · intro c hc
    rw [hc] at hhead
    simpa using hhead
  · intro c hc
    rw [hc] at hlast
    simpa using hlast

lemma make_safe_title_fixpoint (y d : String) (h : sanitizedNormalForm y = true) :
    make_safe_title y d = y := by
  obtain ⟨hne, hlen, hall, htwo, hhead, hlast⟩ := normalForm_parts y h
  have hheadSp : ∀ c, y.data.head? = some c → isPySpace c = false := by
    intro c hc
    cases hps : isPySpace c with
    | false => rfl
    | true =>
      have hcw : isWhitelistChar c = true := by
        apply hall
        cases hy : y.data with
        | nil => rw [hy] at hc; simp at hc
        | cons a t =>
          rw [hy] at hc
          have : a = c := by simpa using hc
          rw [← this]
          exact List.mem_cons_self a t
      have := whitelist_space c hcw hps
      subst this
      have := hhead _ hc
      simp [isSepChar] at this
  have hlastSp : ∀ c, y.data.getLast? = some c → isPySpace c = false := by
    intro c hc
    cases hps : isPySpace c with
    | false => rfl
    | true =>
      have hcw : isWhitelistChar c = true := by
        apply hall
        have hcm : c ∈ y.data.getLast? := Option.mem_def.mpr hc
        rcases List.mem_getLast?_eq_getLast hcm with ⟨hxne, hx⟩
        rw [hx]
        exact List.getLast_mem hxne
      have := whitelist_space c hcw hps
      subst this
      have := hlast _ hc
      simp [isSepChar] at this
  have s1 : y.data.filter (fun c => !(isCategoryC c)) = y.data :=
    List.filter_eq_self.mpr (fun c hc => by rw [whitelist_not_categoryC c (hall c hc)]; rfl)
  have s2 : collapseWs y.data = y.data :=
    (collapseGo_fix y.data (fun c hc hs => whitelist_space c (hall c hc) hs) htwo).1
  have s3 : stripBy isPySpace y.data = y.data := strip_fix _ _ hheadSp hlastSp
  have s4 : y.data.filter isWhitelistChar = y.data :=
    List.filter_eq_self.mpr (fun c hc => hall c hc)
  have s5 : stripBy isSepChar y.data = y.data := strip_fix _ _ hhead hlast
  have hstrip : strip_control_and_unsupported y = y := by
    unfold strip_control_and_unsupported collapseWs at *
    rw [s1, s2, s3]
  have hkeep : keep_basic_chars y = y := by
    unfold keep_basic_chars
    rw [s4]
  have hpre : titleBeforeTruncation y d = y := by
    unfold titleBeforeTruncation
    rw [hstrip, hkeep, s5, if_neg hne]
  unfold make_safe_title
  rw [hpre, if_neg (by omega)]

/-- Claim C1: when every one of the `max_attempts` retries draws a subset
whose fingerprint is already in the used set, the sampler does not raise: it
accepts the final draw (the one made after the loop, `draws max_attempts`),
records its fingerprint, and persists the used set once.  In particular, when
the pool has exactly `n` distinct files and the pool's own fingerprint is
already used, every valid sample is a permutation of the pool, so the sampler
returns that same combination (as a permutation of `files`), with the used
set unchanged and saved once. -/
theorem sampler_exhaustion_accepts_last_draw (draws : Nat → List DriveFile)
    (files : List DriveFile) (n : Nat) (used0 : List String) (max_attempts : Nat)
    (hne : files ≠ []) :
    ((∀ i, i < max_attempts → compute_signature (draws i) ∈ used0) →
      pick_images_avoiding_repeats draws files n used0 max_attempts =
        Except.ok (draws max_attempts,
          used0.insert (compute_signature (draws max_attempts)),
          [used0.insert (compute_signature (draws max_attempts))])) ∧
    ((∀ i, i ≤ max_attempts → isSample files n (draws i)) → files.Nodup →
      files.length = n → compute_signature files ∈ used0 →
      pick_images_avoiding_repeats draws files n used0 max_attempts =
        Except.ok (draws max_attempts, used0, [used0]) ∧
      (draws max_attempts).Perm files) := by
  constructor
  · intro hex
    unfold pick_images_avoiding_repeats
    rw [if_neg hne]
    rw [pickAttempts_exhausted max_attempts draws 0 used0
      (fun i hi => by simpa using hex i hi)]
    simp
  · intro hs hnd hlen hsig
    have hperm : ∀ i, i ≤ max_attempts → (draws i).Perm files := by
      intro i hi
      obtain ⟨hnd2, hlen2, hsub⟩ := hs i hi
      have hlen3 : (draws i).length = files.length := by
        rw [hlen2, hlen, Nat.min_self]
      exact (List.Nodup.subperm hnd2 hsub).perm_of_length_le (le_of_eq hlen3.symm)
    have hsigeq : ∀ i, i ≤ max_attempts →
        compute_signature (draws i) = compute_signature files :=
      fun i hi => compute_signature_perm _ _ ((hperm i hi).map DriveFile.id)
    constructor
    · unfold pick_images_avoiding_repeats
      rw [if_neg hne]
      rw [pickAttempts_exhausted max_attempts draws 0 used0 (fun i hi => by
        rw [show (0 + i) = i from by omega, hsigeq i (le_of_lt hi)]
        exact hsig)]
      rw [Nat.zero_add, hsigeq max_attempts (le_refl _), List.insert_of_mem hsig]
    · exact hperm max_attempts (le_refl _)

/-- Witness for C1: a one-file pool whose only combination is already used;
with two allowed attempts the sampler returns that combination, leaves the
used set unchanged, and saves it once. -/
theorem sampler_exhaustion_accepts_last_draw_witness :
    pick_images_avoiding_repeats (fun _ => [⟨"a", "img"⟩]) [⟨"a", "img"⟩] 1
        [compute_signature [⟨"a", "img"⟩]] 2 =
      Except.ok ([⟨"a", "img"⟩], [compute_signature [⟨"a", "img"⟩]],
        [[compute_signature [⟨"a", "img"⟩]]]) ∧
    ([⟨"a", "img"⟩] : List DriveFile).Perm [⟨"a", "img"⟩] :=
  (sampler_exhaustion_accepts_last_draw (fun _ => [⟨"a", "img"⟩]) [⟨"a", "img"⟩] 1
    [compute_signature [⟨"a", "img"⟩]] 2 (by decide)).2
    (fun i _ => by decide) (by decide) (by decide) (List.mem_cons_self _ _)

/-- Claim C2: the fingerprint depends only on the multiset of file ids: any
two listings whose id sequences are permutations of one another produce the
same signature, because the ids are sorted before joining and hashing. -/
theorem fingerprint_order_independent (l1 l2 : List DriveFile) (hne : l1 ≠ [])
    (h : (l1.map DriveFile.id).Perm (l2.map DriveFile.id)) :
    compute_signature l1 = compute_signature l2 :=
  compute_signature_perm l1 l2 h

/-- Witness for C2: two two-file listings in opposite orders share a
signature. -/
theorem fingerprint_order_independent_witness :
    compute_signature [⟨"idB", "n1"⟩, ⟨"idA", "n2"⟩] =
      compute_signature [⟨"idA", "n2"⟩, ⟨"idB", "n1"⟩] :=
  fingerprint_order_independent [⟨"idB", "n1"⟩, ⟨"idA", "n2"⟩]
    [⟨"idA", "n2"⟩, ⟨"idB", "n1"⟩] (by decide) (by decide)

/-- Counterexample to C3 as stated: the source's allow-list additionally
contains U+2019 (the right single quotation mark, written literally in the
regex of `keep_basic_chars`), so a sanitized title can contain a character
outside the whitelist the spec lists. -/
theorem title_spec_whitelist_counterexample :
    make_safe_title "It’s ok" "Auto Short" = "It’s ok" ∧
    ¬ ((make_safe_title "It’s ok" "Auto Short").data.all specWhitelistChar = true) :=
  ⟨by decide, by decide⟩

/-- Amended C3: when the default consists of allow-list characters, every
character of the sanitized title is in the source's literal allow-list —
ASCII letters, digits, space, the punctuation
. , ; : ! ? @ # & ( ) - _ / | ' " + and additionally U+2019. -/
theorem title_chars_in_code_whitelist (x d : String)
    (hd : d.data.all isWhitelistChar = true) :
    (make_safe_title x d).data.all isWhitelistChar = true := by
  rw [List.all_eq_true] at hd ⊢
  intro c hc
  have hmem : c ∈ (titleBeforeTruncation x d).data := by
    unfold make_safe_title at hc
    by_cases ht : SAFE_MAX_TITLE < (titleBeforeTruncation x d).data.length
    · rw [if_pos ht] at hc
      have hc2 : c ∈ rstripBy isPySpace
          ((titleBeforeTruncation x d).data.take SAFE_MAX_TITLE) := hc
      exact (List.take_sublist _ _).subset (mem_rstripBy _ _ _ hc2)
    · rwa [if_neg ht] at hc
  unfold titleBeforeTruncation at hmem
  by_cases hz : stripBy isSepChar
      (keep_basic_chars (strip_control_and_unsupported x)).data = []
  · rw [if_pos hz] at hmem
    exact hd c hmem
  · rw [if_neg hz] at hmem
    have hc3 : c ∈ stripBy isSepChar
        (keep_basic_chars (strip_control_and_unsupported x)).data := hmem
    have hc4 := mem_stripBy _ _ _ hc3
    unfold keep_basic_chars at hc4
    exact List.of_mem_filter hc4

/-- Witness for the amended C3 at a concrete title and default. -/
theorem title_chars_in_code_whitelist_witness :
    (make_safe_title "Hello, world!" "Auto Short").data.all isWhitelistChar = true :=
  title_chars_in_code_whitelist "Hello, world!" "Auto Short" (by decide)

/-- Counterexample to C4 as stated: removing a disallowed character can leave
two adjacent spaces, which only the next application's whitespace collapse
merges, so the sanitizer is not idempotent on all inputs. -/
theorem sanitize_not_idempotent_counterexample :
    make_safe_title (make_safe_title "a 🔥 b" "Auto Short") "Auto Short" ≠
      make_safe_title "a 🔥 b" "Auto Short" := by decide

/-- Amended C4: the sanitizer is idempotent whenever its first result is in
sanitized normal form — non-empty, within the 95-character bound, all
characters in the source allow-list, no two adjacent whitespace characters,
and neither end a separator.  (In general a second application can differ:
whitelist filtering can create adjacent spaces, and truncation can expose a
trailing separator.) -/
theorem sanitize_idempotent_on_normal_form (x d : String)
    (h : sanitizedNormalForm (make_safe_title x d) = true) :
    make_safe_title (make_safe_title x d) d = make_safe_title x d :=
  make_safe_title_fixpoint (make_safe_title x d) d h

/-- Witness for the amended C4 at a concrete input whose sanitized form is in
normal form. -/
theorem sanitize_idempotent_on_normal_form_witness :
    make_safe_title (make_safe_title "Nice view" "Auto Short") "Auto Short" =
      make_safe_title "Nice view" "Auto Short" :=
  sanitize_idempotent_on_normal_form "Nice view" "Auto Short" (by decide)

/-- Counterexample to C5 as stated: the newline and tab are category-Cc
characters, removed by `strip_control_and_unsupported` before whitespace is
collapsed, so no space separates Sunset and View; removing the emoji leaves a
double space.  The result is not the string the spec's scenario predicts. -/
theorem title_scenario_counterexample :
    make_safe_title "  Amazing!!! 🔥🔥 Sunset\n\tView  " "Auto Short" ≠
      "Amazing!!! Sunset View" := by decide

/-- Amended C5: the sanitizer on the scenario input yields
"Amazing!!!  SunsetView" — the control characters vanish before collapsing
and the emoji removal leaves two adjacent spaces. -/
theorem title_scenario_actual_result :
    make_safe_title "  Amazing!!! 🔥🔥 Sunset\n\tView  " "Auto Short" =
      "Amazing!!!  SunsetView" := by decide

/-- Claim C6: on a non-empty pool the sampler always returns successfully,
the returned subset's fingerprint is in the final used set, and the used set
is persisted exactly once — the save log has exactly one entry, the final
set. -/
theorem sampler_persists_exactly_once (draws : Nat → List DriveFile)
    (files : List DriveFile) (n : Nat) (used0 : List String) (max_attempts : Nat)
    (hne : files ≠ []) :
    ∃ chosen used1,
      pick_images_avoiding_repeats draws files n used0 max_attempts =
        Except.ok (chosen, used1, [used1]) ∧ compute_signature chosen ∈ used1 := by
  obtain ⟨c, u, heq, hmem⟩ := pickAttempts_shape max_attempts draws 0 used0
  refine ⟨c, u, ?_, hmem⟩
  unfold pick_images_avoiding_repeats
  rw [if_neg hne, heq]

/-- Witness for C6 on a concrete one-file pool. -/
theorem sampler_persists_exactly_once_witness :
    ∃ chosen used1,
      pick_images_avoiding_repeats (fun _ => [⟨"a", "img"⟩]) [⟨"a", "img"⟩] 1 [] 20 =
        Except.ok (chosen, used1, [used1]) ∧ compute_signature chosen ∈ used1 :=
  sampler_persists_exactly_once (fun _ => [⟨"a", "img"⟩]) [⟨"a", "img"⟩] 1 [] 20
    (by decide)

/-- Counterexample to C7 as stated: malformed content does not always yield
the empty set.  The artifact "[1, 2]" is not a valid used-set serialisation,
yet `json.load` decodes it and `set()` accepts it, so the loader returns a
non-empty set of two numeric garbage entries instead of the empty set. -/
theorem load_malformed_counterexample :
    load_used_sets_local (some "[1, 2]") = [PyElem.pnum "1", PyElem.pnum "2"] ∧
    load_used_sets_local (some "[1, 2]") ≠ ([] : List PyElem) :=
  ⟨by decide, by decide⟩

/-- Amended C7: the loader never raises — it is a total function.  A missing
or unreadable artifact, undecodable content, and decodable content that
`set()` rejects (a non-iterable value, or an iterable with unhashable
elements) all yield the empty set; but decodable content that is a hashable
iterable yields the set of its iterated elements, which for wrong-shape
content is a non-empty garbage set rather than the empty set. -/
theorem load_used_sets_recovery :
    load_used_sets_local none = [] ∧
    (∀ c, parseJsonTop c = none → load_used_sets_local (some c) = []) ∧
    (∀ c v, parseJsonTop c = some v → pySetOf v = none →
      load_used_sets_local (some c) = []) ∧
    (∀ c v s, parseJsonTop c = some v → pySetOf v = some s →
      load_used_sets_local (some c) = s) := by
  refine ⟨rfl, ?_, ?_, ?_⟩
  · intro c h
    simp [load_used_sets_local, h]
  · intro c v h1 h2
    simp [load_used_sets_local, h1, h2]
  · intro c v s h1 h2
    simp [load_used_sets_local, h1, h2]

/-- Witness for the amended C7: a missing artifact, undecodable content, a
decoded non-iterable value, and a decoded array of strings, each loading as
the theorem states. -/
theorem load_used_sets_recovery_witness :
    load_used_sets_local none = [] ∧
    load_used_sets_local (some "this is not json") = [] ∧
    load_used_sets_local (some "42") = [] ∧
    load_used_sets_local (some "[\"aa\", \"aa\", \"bb\"]") =
      [PyElem.pstr "aa", PyElem.pstr "bb"] :=
  ⟨load_used_sets_recovery.1,
   load_used_sets_recovery.2.1 "this is not json" (by rfl),
   load_used_sets_recovery.2.2.1 "42" (Json.jnum "42") (by rfl) (by rfl),
   load_used_sets_recovery.2.2.2 "[\"aa\", \"aa\", \"bb\"]"
     (Json.jarr [Json.jstr "aa", Json.jstr "aa", Json.jstr "bb"])
     [PyElem.pstr "aa", PyElem.pstr "bb"] (by rfl) (by rfl)⟩

lemma title_data_length_le (x d : String) :
    (make_safe_title x d).data.length ≤ SAFE_MAX_TITLE := by
  unfold make_safe_title
  by_cases ht : SAFE_MAX_TITLE < (titleBeforeTruncation x d).data.length
  · rw [if_pos ht]
    have h1 := length_rstripBy_le isPySpace
      ((titleBeforeTruncation x d).data.take SAFE_MAX_TITLE)
    have h2 := @List.length_take Char SAFE_MAX_TITLE (titleBeforeTruncation x d).data
    have h3 : (rstripBy isPySpace
        ((titleBeforeTruncation x d).data.take SAFE_MAX_TITLE)).length ≤
        SAFE_MAX_TITLE := by
      rw [h2] at h1
      exact le_trans h1 inf_le_left
    exact h3
  · rw [if_neg ht]
    omega

lemma title_truncation_eq (x d : String)
    (ht : SAFE_MAX_TITLE < (titleBeforeTruncation x d).data.length) :
    make_safe_title x d =
      ⟨rstripBy isPySpace ((titleBeforeTruncation x d).data.take SAFE_MAX_TITLE)⟩ := by
  unfold make_safe_title
  rw [if_pos ht]

/-- Claim C8: the sanitized title never exceeds 95 characters (for defaults
within the bound), and when truncation occurs the result is exactly the
95-character prefix with trailing whitespace stripped. -/
theorem title_length_bound (x d : String) (hd : d.length ≤ SAFE_MAX_TITLE) :
    (make_safe_title x d).length ≤ SAFE_MAX_TITLE ∧
    (SAFE_MAX_TITLE < (titleBeforeTruncation x d).data.length →
      make_safe_title x d =
        ⟨rstripBy isPySpace ((titleBeforeTruncation x d).data.take SAFE_MAX_TITLE)⟩) :=
  ⟨title_data_length_le x d, fun ht => title_truncation_eq x d ht⟩

/-- Witness for C8 at an input long enough to be truncated. -/
theorem title_length_bound_witness :
    (make_safe_title "aaaaaaaaaaaaaaaaaaaaaaaaaaaaaaaaaaaaaaaaaaaaaaaaaaaaaaaaaaaaaaaaaaaaaaaaaaaaaaaaaaaaaaaaaaaaaaaaaa" "Auto Short").length ≤ SAFE_MAX_TITLE ∧
    (SAFE_MAX_TITLE < (titleBeforeTruncation "aaaaaaaaaaaaaaaaaaaaaaaaaaaaaaaaaaaaaaaaaaaaaaaaaaaaaaaaaaaaaaaaaaaaaaaaaaaaaaaaaaaaaaaaaaaaaaaaaa" "Auto Short").data.length →
      make_safe_title "aaaaaaaaaaaaaaaaaaaaaaaaaaaaaaaaaaaaaaaaaaaaaaaaaaaaaaaaaaaaaaaaaaaaaaaaaaaaaaaaaaaaaaaaaaaaaaaaaa" "Auto Short" =
        ⟨rstripBy isPySpace ((titleBeforeTruncation "aaaaaaaaaaaaaaaaaaaaaaaaaaaaaaaaaaaaaaaaaaaaaaaaaaaaaaaaaaaaaaaaaaaaaaaaaaaaaaaaaaaaaaaaaaaaaaaaaa" "Auto Short").data.take SAFE_MAX_TITLE)⟩) :=
  title_length_bound "aaaaaaaaaaaaaaaaaaaaaaaaaaaaaaaaaaaaaaaaaaaaaaaaaaaaaaaaaaaaaaaaaaaaaaaaaaaaaaaaaaaaaaaaaaaaaaaaaa" "Auto Short" (by decide)

/-- Counterexample to C9 as stated: with an empty default, an input of only
disallowed characters sanitizes to the empty string, so the result is not
non-empty for every default. -/
theorem title_empty_default_counterexample :
    make_safe_title "🔥🔥🔥" "" = "" := by decide

/-- Amended C9: for every non-empty default within the 95-character bound the
sanitized title is non-empty, and it equals the default whenever every
character of the input is disallowed or whitespace. -/
theorem title_nonempty_with_nonempty_default (x d : String) (hne : d ≠ "")
    (hlen : d.length ≤ SAFE_MAX_TITLE) :
    make_safe_title x d ≠ "" ∧
    ((∀ c ∈ x.data, isWhitelistChar c = false ∨ isPySpace c = true) →
      make_safe_title x d = d) := by
  have hdlen : ¬ (SAFE_MAX_TITLE < d.data.length) := by
    have hsame : d.length = d.data.length := rfl
    omega
  constructor
  · by_cases hz : stripBy isSepChar
        (keep_basic_chars (strip_control_and_unsupported x)).data = []
    · have hpre : titleBeforeTruncation x d = d := by
        unfold titleBeforeTruncation
        rw [hz]
        exact if_pos rfl
      unfold make_safe_title
      rw [hpre, if_neg hdlen]
      exact hne
    · cases hL : stripBy isSepChar
          (keep_basic_chars (strip_control_and_unsupported x)).data with
      | nil => exact absurd hL hz
      | cons c0 rest =>
        have hc0sep : isSepChar c0 = false := by
          apply stripBy_head? isSepChar
            (keep_basic_chars (strip_control_and_unsupported x)).data
          rw [hL]
          rfl
        have hc0wl : isWhitelistChar c0 = true := by
          have hm : c0 ∈ stripBy isSepChar
              (keep_basic_chars (strip_control_and_unsupported x)).data := by
            rw [hL]
            exact List.mem_cons_self c0 rest
          have hm2 := mem_stripBy _ _ _ hm
          unfold keep_basic_chars at hm2
          exact List.of_mem_filter hm2
        have hc0ws : isPySpace c0 = false := by
          cases hps : isPySpace c0 with
          | false => rfl
          | true =>
            have hcsp := whitelist_space c0 hc0wl hps
            rw [hcsp] at hc0sep
            simp [isSepChar] at hc0sep
        have hpre : titleBeforeTruncation x d = ⟨c0 :: rest⟩ := by
          unfold titleBeforeTruncation
          rw [hL, if_neg (by simp)]
        unfold make_safe_title
        rw [hpre]
        by_cases htr : SAFE_MAX_TITLE < (⟨c0 :: rest⟩ : String).data.length
        · rw [if_pos htr]
          intro heq
          have hdata := congrArg String.data heq
          have htk : ((⟨c0 :: rest⟩ : String).data.take SAFE_MAX_TITLE) =
              c0 :: rest.take 94 := rfl
          rw [htk] at hdata
          have hsp := rstripBy_eq_nil isPySpace _ hdata c0 (List.mem_cons_self _ _)
          rw [hc0ws] at hsp
          simp at hsp
        · rw [if_neg htr]
          intro heq
          have hdata := congrArg String.data heq
          simp at hdata
  · intro hx
    have hchars : ∀ c ∈ (keep_basic_chars (strip_control_and_unsupported x)).data,
        c = ' ' := by
      intro c hc
      have hcw : isWhitelistChar c = true := by
        unfold keep_basic_chars at hc
        exact List.of_mem_filter hc
      have hmem2 : c ∈ (strip_control_and_unsupported x).data := by
        unfold keep_basic_chars at hc
        exact List.mem_of_mem_filter hc
      have h2 : c ∈ collapseGo false
          (x.data.filter (fun c => !(isCategoryC c))) :=
        mem_stripBy _ _ _ hmem2
      rcases collapseGo_chars _ false c h2 with h3 | ⟨h3, h4⟩
      · exact h3
      · have h5 : c ∈ x.data := List.mem_of_mem_filter h3
        rcases hx c h5 with h6 | h6
        · rw [hcw] at h6
          exact absurd h6 (by simp)
        · rw [h6] at h4
          exact absurd h4 (by simp)
    have hstrip0 : stripBy isSepChar
        (keep_basic_chars (strip_control_and_unsupported x)).data = [] := by
      unfold stripBy lstripBy
      have hdw : (keep_basic_chars (strip_control_and_unsupported x)).data.dropWhile
          isSepChar = [] :=
        List.dropWhile_eq_nil_iff.mpr (fun c hc => by rw [hchars c hc]; rfl)
      rw [hdw]
      rfl
    have hpre : titleBeforeTruncation x d = d := by
      unfold titleBeforeTruncation
      rw [hstrip0]
      exact if_pos rfl
    unfold make_safe_title
    rw [hpre, if_neg hdlen]

/-- Witness for the amended C9 at the concrete scenario of the claim. -/
theorem title_nonempty_with_nonempty_default_witness :
    make_safe_title "🔥🔥🔥" "Auto Short" ≠ "" ∧
    make_safe_title "🔥🔥🔥" "Auto Short" = "Auto Short" := by
  have h := title_nonempty_with_nonempty_default "🔥🔥🔥" "Auto Short"
    (by decide) (by decide)
  exact ⟨h.1, h.2 (by decide)⟩

/-- Claim C10: on an empty pool the sampler fails with the empty-pool error,
returning no subset and performing no fallback. -/
theorem sampler_empty_pool_error (draws : Nat → List DriveFile) (n : Nat)
    (used0 : List String) (max_attempts : Nat) :
    pick_images_avoiding_repeats draws [] n used0 max_attempts =
      Except.error "No images found in Drive folder." := by
  unfold pick_images_avoiding_repeats
  rw [if_pos rfl]

end AutoShorts
